import Mathlib

/-!
Shallow embedding of `src/lexer.rs` from the rcc repository: the data model
(`Token`, `Keyword`, `Literal`, `Symbol`, `LexError`), the scanner state
(`Lexer`, `LexerContext`) and the scanning functions (`Token.parse`,
`Lexer.process`, `Lexer.pop`, `Lexer.push`, `Lexer.finalize`, `lexContents`).

Modelling decisions, faithful to the Rust source:

* The source classifies lexemes with `Regex::is_match`, which performs an
  UNANCHORED search: `[0-9]+` matches any string containing a decimal digit,
  `[a-zA-Z][a-zA-Z0-9]*` any string containing an ASCII letter, and
  `".*"` / `'.*'` any string containing two quote characters of the given
  kind with no newline between them (`.` does not match a newline).  The
  embedding states these containment conditions directly.
* `string.parse::<i64>().unwrap()` and `string.parse::<char>().unwrap()`
  panic when the conversion fails; a run of the scanner therefore has three
  outcomes (`ok`, `err`, `panicked`), mirrored by `LexOutcome`.
* Rust's `i64::from_str` accepts an optional sign followed by one or more
  decimal digits and fails on overflow; `char::from_str` succeeds exactly on
  one-character strings.  Both are embedded executably below.
* The `u64` counters `column`/`line` are modelled as `Nat`; the error column
  `self.column - self.buffer.len()` is modelled with truncated `Nat`
  subtraction (the Rust build would overflow-panic when the buffer is longer
  than the column count, a situation none of the runs below reaches), and
  `buffer.len()` (a byte count) is modelled as the character count, which
  coincides on the ASCII inputs considered here.
-/

set_option maxRecDepth 8000

namespace RCC

/-- A lexical token's keyword variant (`enum Keyword` in the source). -/
inductive Keyword
  | Auto | Break | Case | Char | Const | Continue | Default | Do | Double | Else
  | Enum | Extern | Float | For | Goto | If | Inline | Int | Long | Nullptr
  | Register | Restrict | Return | Short | Signed | Sizeof | Static | Struct
  | Switch | Typedef | Union | Unsigned | Void | Volatile | While
  deriving DecidableEq, Fintype

/-- A literal value (`enum Literal` in the source): `Char(char)`,
`Integer(i64)`, `String(String)`. -/
inductive Literal
  | Char (c : Char)
  | Integer (value : Int)
  | String (s : String)
  deriving DecidableEq

/-- A symbol (`enum Symbol` in the source). -/
inductive Symbol
  | Ampersand | Asterisk | BracketOpen | BracketClose | Comma | Colon | Equals
  | Hash | ParenOpen | ParenClose | Semicolon | SquareBracketOpen
  | SquareBracketClose
  deriving DecidableEq, Fintype

/-- A lexical token (`enum Token` in the source). -/
inductive Token
  | Keyword (k : Keyword)
  | Identifier (name : String)
  | Literal (l : Literal)
  | Symbol (s : Symbol)
  deriving DecidableEq

/-- The classification error `LexError::InvalidToken` (the `Io` variant wraps
file-system failures outside the scanner and is not modelled). -/
structure LexError where
  token : String
  column : Nat
  line : Nat
  deriving DecidableEq

/-- Outcome of a scanner step or of a whole scan: success, a returned
`LexError`, or a Rust panic (an `unwrap` of a failed conversion). -/
inductive LexOutcome (α : Type)
  | ok (a : α)
  | err (e : LexError)
  | panicked
  deriving DecidableEq

/-- `enum LexerContext` in the source: `Normal` or `InString`. -/
inductive LexerContext
  | Normal
  | InString
  deriving DecidableEq

/-- The scanner state (`struct Lexer` in the source). -/
structure Lexer where
  buffer : String
  column : Nat
  line : Nat
  tokens : List Token
  context : LexerContext
  deriving DecidableEq

/-- `Lexer::new()`: empty buffer, column 0, line 1, no tokens, `Normal`. -/
def Lexer.new : Lexer :=
  { buffer := "", column := 0, line := 1, tokens := [], context := .Normal }

/-- The regex character class `[0-9]`. -/
def isAsciiDigit (c : Char) : Bool := 48 ≤ c.toNat && c.toNat ≤ 57

/-- The regex character class `[a-zA-Z]`. -/
def isAsciiAlpha (c : Char) : Bool :=
  (65 ≤ c.toNat && c.toNat ≤ 90) || (97 ≤ c.toNat && c.toNat ≤ 122)

/-- Does the list start (after zero or more non-newline characters) with the
quote `q`?  Used to decide an unanchored search for the pattern `q.*q`:
`.` matches every character except a newline. -/
def closesQuote (q : Char) : List Char → Bool
  | [] => false
  | c :: r => c == q || (c != '\n' && closesQuote q r)

/-- Unanchored search for the regex `q.*q`: some occurrence of `q` is
followed, with no newline in between, by another `q`. -/
def containsQuotePair (q : Char) : List Char → Bool
  | [] => false
  | c :: r => (c == q && closesQuote q r) || containsQuotePair q r

/-- Numeric value of a list of decimal digits. -/
def digitsVal (l : List Char) : Nat :=
  l.foldl (fun a c => a * 10 + (c.toNat - 48)) 0

/-- Rust's `str::parse::<i64>`: an optional `+`/`-` sign, then one or more
decimal digits, with the resulting value required to fit in `i64`
(between -9223372036854775808 and 9223372036854775807). -/
def parseI64 (s : String) : Option Int :=
  match s.data with
  | [] => none
  | c0 :: rest =>
    let neg : Bool := c0 == '-'
    let body : List Char := if c0 == '-' || c0 == '+' then rest else c0 :: rest
    if body.isEmpty then none
    else if body.all isAsciiDigit then
      let v : Int :=
        if neg then -(digitsVal body : Int) else (digitsVal body : Int)
      if -9223372036854775808 ≤ v ∧ v ≤ 9223372036854775807 then some v
      else none
    else none

/-- Rust's `str::parse::<char>`: succeeds exactly on one-character strings. -/
def parseCharRust (s : String) : Option Char :=
  match s.data with
  | [c] => some c
  | _ => none

/-- Result of one of the `valid_*_literal` helpers: a recognized token, no
match, or a panic from an `unwrap` of a failed conversion. -/
inductive MatchResult
  | found (t : Option Token)
  | panicked
  deriving DecidableEq

/-- `valid_integer_literal`: unanchored match of `[0-9]+`, then
`string.parse::<i64>().unwrap()` on the WHOLE lexeme. -/
def valid_integer_literal (s : String) : MatchResult :=
  if s.data.any isAsciiDigit then
    match parseI64 s with
    | some v => .found (some (.Literal (.Integer v)))
    | none => .panicked
  else .found none

/-- `valid_string_literal`: unanchored match of `".*"`; the token keeps the
whole lexeme (`string.into()`). -/
def valid_string_literal (s : String) : Option Token :=
  if containsQuotePair '"' s.data then some (.Literal (.String s)) else none

/-- `valid_char_literal`: unanchored match of `'.*'` (`'\x27'` is the single
quote), then `string.parse::<char>().unwrap()` on the WHOLE lexeme, quote
delimiters included. -/
def valid_char_literal (s : String) : MatchResult :=
  if containsQuotePair '\x27' s.data then
    match parseCharRust s with
    | some c => .found (some (.Literal (.Char c)))
    | none => .panicked
  else .found none

/-- `valid_literal`: `valid_integer_literal(s).or(valid_string_literal(s))
.or(valid_char_literal(s))`.  Rust evaluates all three arguments, so a panic
in the integer helper fires first and one in the char helper fires even when
an earlier alternative matched. -/
def valid_literal (s : String) : MatchResult :=
  match valid_integer_literal s with
  | .panicked => .panicked
  | .found a =>
    match valid_char_literal s with
    | .panicked => .panicked
    | .found c => .found (a.or ((valid_string_literal s).or c))

/-- `valid_identifier`: unanchored match of `[a-zA-Z][a-zA-Z0-9]*`. -/
def valid_identifier (s : String) : Option Token :=
  if s.data.any isAsciiAlpha then some (.Identifier s) else none

/-- The keyword arms of the `match` in `Token::parse`, in source order. -/
def keywordTable : List (String × Keyword) :=
  [("auto", .Auto), ("break", .Break), ("case", .Case), ("char", .Char),
   ("const", .Const), ("continue", .Continue), ("default", .Default),
   ("do", .Do), ("double", .Double), ("else", .Else), ("enum", .Enum),
   ("extern", .Extern), ("float", .Float), ("for", .For), ("goto", .Goto),
   ("if", .If), ("inline", .Inline), ("int", .Int), ("long", .Long),
   ("nullptr", .Nullptr), ("register", .Register), ("restrict", .Restrict),
   ("return", .Return), ("short", .Short), ("signed", .Signed),
   ("sizeof", .Sizeof), ("static", .Static), ("struct", .Struct),
   ("switch", .Switch), ("typedef", .Typedef), ("union", .Union),
   ("unsigned", .Unsigned), ("void", .Void), ("volatile", .Volatile),
   ("while", .While)]

/-- The symbol arms of the `match` in `Token::parse`, in source order. -/
def symbolTable : List (String × Symbol) :=
  [("&", .Ampersand), ("*", .Asterisk), ("\x7b", .BracketOpen),
   ("\x7d", .BracketClose), (",", .Comma), (":", .Colon), ("=", .Equals),
   ("#", .Hash), ("(", .ParenOpen), (")", .ParenClose), (";", .Semicolon),
   ("[", .SquareBracketOpen), ("]", .SquareBracketClose)]

/-- The exact-match arms of `Token::parse`'s `match` on the buffer. -/
def exactMatch (s : String) : Option Token :=
  match keywordTable.lookup s with
  | some k => some (.Keyword k)
  | none =>
    match symbolTable.lookup s with
    | some y => some (.Symbol y)
    | none => none

/-- Result of `Token::parse`: a token, a `LexError`, or a panic. -/
inductive ParseResult
  | tok (t : Token)
  | err (e : LexError)
  | panicked
  deriving DecidableEq

/-- `Token::parse`: exact keyword/symbol match, then `valid_literal`, then
`valid_identifier`, else `LexError::InvalidToken` with column
`lexer.column - lexer.buffer.len()`. -/
def Token.parse (lexer : Lexer) : ParseResult :=
  match exactMatch lexer.buffer with
  | some t => .tok t
  | none =>
    match valid_literal lexer.buffer with
    | .panicked => .panicked
    | .found (some t) => .tok t
    | .found none =>
      match valid_identifier lexer.buffer with
      | some t => .tok t
      | none =>
        .err { token := lexer.buffer,
               column := lexer.column - lexer.buffer.length,
               line := lexer.line }

/-- `Lexer::push`: append `c` to the buffer and advance `column`; a newline
then resets `column` to 0 and advances `line`. -/
def Lexer.push (st : Lexer) (c : Char) : Lexer :=
  let st1 := { st with buffer := st.buffer.push c, column := st.column + 1 }
  if c == '\n' then { st1 with column := 0, line := st1.line + 1 } else st1

/-- `Lexer::pop`: if the buffer is non-empty, parse it into a token and
clear it. -/
def Lexer.pop (st : Lexer) : LexOutcome Lexer :=
  if st.buffer.length > 0 then
    match Token.parse st with
    | .tok t => .ok { st with buffer := "", tokens := st.tokens ++ [t] }
    | .err e => .err e
    | .panicked => .panicked
  else .ok st

/-- `Lexer::process`: one character, by the current context. -/
def Lexer.process (st : Lexer) (c : Char) : LexOutcome Lexer :=
  match st.context with
  | .Normal =>
    if c == ' ' || c == '\n' then st.pop
    else if c == '(' || c == ')' || c == '\x7b' || c == '\x7d' || c == ';'
        || c == '*' then
      match st.pop with
      | .ok st1 => (st1.push c).pop
      | .err e => .err e
      | .panicked => .panicked
    else if c == '"' then .ok { st with context := .InString }
    else .ok (st.push c)
  | .InString =>
    if c == '"' then
      if st.buffer.length > 0 then
        .ok { st with buffer := "",
                      tokens := st.tokens ++ [.Literal (.String st.buffer)],
                      context := .Normal }
      else .ok { st with context := .Normal }
    else .ok (st.push c)

/-- `Lexer::finalize`: parse whatever remains in the buffer. -/
def Lexer.finalize (st : Lexer) : LexOutcome Lexer :=
  if st.buffer.length != 0 then st.pop else .ok st

/-- The character loop of `lex_contents`. -/
def processAll : List Char → Lexer → LexOutcome Lexer
  | [], st => .ok st
  | c :: r, st =>
    match st.process c with
    | .ok st1 => processAll r st1
    | .err e => .err e
    | .panicked => .panicked

/-- `lex_contents`: run every character through `process`, `finalize`, and
return the accumulated tokens. -/
def lexContents (contents : String) : LexOutcome (List Token) :=
  match processAll contents.data Lexer.new with
  | .ok st =>
    match st.finalize with
    | .ok st1 => .ok st1.tokens
    | .err e => .err e
    | .panicked => .panicked
  | .err e => .err e
  | .panicked => .panicked

/-! ### Basic facts about the embedded strings and scanner steps -/

theorem String.mk_data (s : String) : String.mk s.data = s := rfl

theorem String.data_app (a b : String) : (a ++ b).data = a.data ++ b.data := rfl

theorem String.data_push_eq (s : String) (c : Char) :
    (s.push c).data = s.data ++ [c] := rfl

theorem String.data_ne_nil {s : String} (h : s ≠ "") : s.data ≠ [] :=
  fun hd => h (String.ext hd)

/-- A character the `Normal` mode neither flushes on nor treats specially:
not a space, newline, paren, brace, semicolon, asterisk or double quote. -/
def plainChar (c : Char) : Bool :=
  !(c == ' ' || c == '\n' || c == '(' || c == ')' || c == '\x7b'
    || c == '\x7d' || c == ';' || c == '*' || c == '"')

/-- The six characters of the source's immediate-symbol branch. -/
def delimChar (c : Char) : Bool :=
  c == '(' || c == ')' || c == '\x7b' || c == '\x7d' || c == ';' || c == '*'

theorem alpha_ranges {c : Char} (h : isAsciiAlpha c = true) :
    (65 ≤ c.toNat ∧ c.toNat ≤ 90) ∨ (97 ≤ c.toNat ∧ c.toNat ≤ 122) := by
  simpa [isAsciiAlpha, Bool.or_eq_true, Bool.and_eq_true,
    decide_eq_true_eq] using h

theorem digit_ranges {c : Char} (h : isAsciiDigit c = true) :
    48 ≤ c.toNat ∧ c.toNat ≤ 57 := by
  simpa [isAsciiDigit, Bool.and_eq_true, decide_eq_true_eq] using h

theorem alpha_not_digit {c : Char} (h : isAsciiAlpha c = true) :
    isAsciiDigit c = false := by
  cases h' : isAsciiDigit c with
  | false => rfl
  | true => exact absurd (alpha_ranges h) (by have := digit_ranges h'; omega)

theorem alpha_plain {c : Char} (h : isAsciiAlpha c = true) :
    plainChar c = true := by
  simp only [plainChar, Bool.not_eq_true', Bool.or_eq_false_iff,
    beq_eq_false_iff_ne]
  refine ⟨⟨⟨⟨⟨⟨⟨⟨?_, ?_⟩, ?_⟩, ?_⟩, ?_⟩, ?_⟩, ?_⟩, ?_⟩, ?_⟩ <;>
    · intro hc
      subst hc
      exact absurd h (by decide)

theorem digit_plain {c : Char} (h : isAsciiDigit c = true) :
    plainChar c = true := by
  simp only [plainChar, Bool.not_eq_true', Bool.or_eq_false_iff,
    beq_eq_false_iff_ne]
  refine ⟨⟨⟨⟨⟨⟨⟨⟨?_, ?_⟩, ?_⟩, ?_⟩, ?_⟩, ?_⟩, ?_⟩, ?_⟩, ?_⟩ <;>
    · intro hc
      subst hc
      exact absurd h (by decide)

theorem alpha_ne_dquote {c : Char} (h : isAsciiAlpha c = true) : c ≠ '"' := by
  intro hc; subst hc; exact absurd h (by decide)

theorem alpha_ne_squote {c : Char} (h : isAsciiAlpha c = true) : c ≠ '\x27' := by
  intro hc; subst hc; exact absurd h (by decide)

theorem digit_ne_dquote {c : Char} (h : isAsciiDigit c = true) : c ≠ '"' := by
  intro hc; subst hc; exact absurd h (by decide)

theorem digit_ne_squote {c : Char} (h : isAsciiDigit c = true) : c ≠ '\x27' := by
  intro hc; subst hc; exact absurd h (by decide)

theorem closesQuote_ne_nil {q : Char} {l : List Char}
    (h : closesQuote q l = true) : l ≠ [] := by
  intro he; subst he; simp [closesQuote] at h

theorem containsQuotePair_length {q : Char} {l : List Char}
    (h : containsQuotePair q l = true) : 2 ≤ l.length := by
  induction l with
  | nil => simp [containsQuotePair] at h
  | cons c r ih =>
    simp only [containsQuotePair, Bool.or_eq_true, Bool.and_eq_true] at h
    rcases h with ⟨-, hc⟩ | h
    · have := closesQuote_ne_nil hc
      have : 1 ≤ r.length := List.length_pos.mpr this
      simp only [List.length_cons]
      omega
    · have := ih h
      simp only [List.length_cons]
      omega

theorem no_quote_pair {q : Char} {l : List Char} (h : ∀ c ∈ l, c ≠ q) :
    containsQuotePair q l = false := by
  induction l with
  | nil => rfl
  | cons c r ih =>
    have hc : (c == q) = false := beq_eq_false_iff_ne.mpr (h c (List.mem_cons_self c r))
    simp only [containsQuotePair, hc, Bool.false_and, Bool.false_or]
    exact ih fun d hd => h d (List.mem_cons_of_mem c hd)

/-! ### Step lemmas for the scanner -/

theorem push_of_ne_newline {b : String} {col line : Nat} {ts : List Token}
    {ctx : LexerContext} {c : Char} (h : c ≠ '\n') :
    Lexer.push ⟨b, col, line, ts, ctx⟩ c = ⟨b.push c, col + 1, line, ts, ctx⟩ := by
  simp [Lexer.push, h]

theorem push_newline (b : String) (col line : Nat) (ts : List Token)
    (ctx : LexerContext) :
    Lexer.push ⟨b, col, line, ts, ctx⟩ '\n' =
      ⟨b.push '\n', 0, line + 1, ts, ctx⟩ := by
  simp [Lexer.push]

theorem pop_empty (col line : Nat) (ts : List Token) (ctx : LexerContext) :
    Lexer.pop ⟨"", col, line, ts, ctx⟩ = .ok ⟨"", col, line, ts, ctx⟩ := rfl

theorem pop_tok {b : String} {col line : Nat} {ts : List Token}
    {ctx : LexerContext} {t : Token} (hb : b.data ≠ [])
    (h : Token.parse ⟨b, col, line, ts, ctx⟩ = .tok t) :
    Lexer.pop ⟨b, col, line, ts, ctx⟩ = .ok ⟨"", col, line, ts ++ [t], ctx⟩ := by
  have hlen : b.length > 0 := List.length_pos.mpr hb
  simp [Lexer.pop, hlen, h]

theorem process_space (b : String) (col line : Nat) (ts : List Token) :
    Lexer.process ⟨b, col, line, ts, .Normal⟩ ' ' =
      Lexer.pop ⟨b, col, line, ts, .Normal⟩ := rfl

theorem process_quote_normal (b : String) (col line : Nat) (ts : List Token) :
    Lexer.process ⟨b, col, line, ts, .Normal⟩ '"' =
      .ok ⟨b, col, line, ts, .InString⟩ := rfl

theorem process_plain {b : String} {col line : Nat} {ts : List Token}
    {c : Char} (h : plainChar c = true) :
    Lexer.process ⟨b, col, line, ts, .Normal⟩ c =
      .ok ⟨b.push c, col + 1, line, ts, .Normal⟩ := by
  simp only [plainChar, Bool.not_eq_true', Bool.or_eq_false_iff,
    beq_eq_false_iff_ne] at h
  obtain ⟨⟨⟨⟨⟨⟨⟨⟨h1, h2⟩, h3⟩, h4⟩, h5⟩, h6⟩, h7⟩, h8⟩, h9⟩ := h
  rw [show Lexer.process ⟨b, col, line, ts, .Normal⟩ c =
      (if c == ' ' || c == '\n' then Lexer.pop ⟨b, col, line, ts, .Normal⟩
       else if c == '(' || c == ')' || c == '\x7b' || c == '\x7d' || c == ';'
           || c == '*' then
         match Lexer.pop ⟨b, col, line, ts, .Normal⟩ with
         | .ok st1 => (st1.push c).pop
         | .err e => .err e
         | .panicked => .panicked
       else if c == '"' then .ok ⟨b, col, line, ts, .InString⟩
       else .ok (Lexer.push ⟨b, col, line, ts, .Normal⟩ c)) from rfl]
  simp [h1, h2, h3, h4, h5, h6, h7, h8, h9, push_of_ne_newline h2]

theorem process_instring_push {b : String} {col line : Nat} {ts : List Token}
    {c : Char} (h : c ≠ '"') :
    Lexer.process ⟨b, col, line, ts, .InString⟩ c =
      .ok (Lexer.push ⟨b, col, line, ts, .InString⟩ c) := by
  rw [show Lexer.process ⟨b, col, line, ts, .InString⟩ c =
      (if c == '"' then
        if b.length > 0 then
          .ok ⟨"", col, line, ts ++ [.Literal (.String b)], .Normal⟩
        else .ok ⟨b, col, line, ts, .Normal⟩
      else .ok (Lexer.push ⟨b, col, line, ts, .InString⟩ c)) from rfl]
  simp [h]

theorem process_instring_close {b : String} {col line : Nat} {ts : List Token}
    (hb : b.data ≠ []) :
    Lexer.process ⟨b, col, line, ts, .InString⟩ '"' =
      .ok ⟨"", col, line, ts ++ [.Literal (.String b)], .Normal⟩ := by
  have hlen : b.length > 0 := List.length_pos.mpr hb
  rw [show Lexer.process ⟨b, col, line, ts, .InString⟩ '"' =
      (if b.length > 0 then
        .ok ⟨"", col, line, ts ++ [.Literal (.String b)], .Normal⟩
      else .ok ⟨b, col, line, ts, .Normal⟩) from rfl]
  rw [if_pos hlen]

theorem finalize_of_pop {st st2 : Lexer} (h : Lexer.pop st = .ok st2) :
    Lexer.finalize st = .ok st2 := by
  unfold Lexer.finalize
  by_cases hb : st.buffer.length = 0
  · have hbuf : st.buffer = "" := String.ext (List.length_eq_zero.mp hb)
    have : Lexer.pop st = .ok st := by
      unfold Lexer.pop
      rw [if_neg (by omega)]
    rw [h] at this
    have h2 := LexOutcome.ok.inj this
    subst h2
    simp [hb]
  · rw [if_pos (by simpa using hb)]
    exact h

theorem processAll_cons (c : Char) (l : List Char) (st : Lexer) :
    processAll (c :: l) st =
      match st.process c with
      | .ok st1 => processAll l st1
      | .err e => .err e
      | .panicked => .panicked := rfl

theorem processAll_append (a b : List Char) (st : Lexer) :
    processAll (a ++ b) st =
      match processAll a st with
      | .ok st1 => processAll b st1
      | .err e => .err e
      | .panicked => .panicked := by
  induction a generalizing st with
  | nil => rfl
  | cons c r ih =>
    rw [List.cons_append, processAll_cons, processAll_cons]
    cases h : st.process c with
    | ok st1 => exact ih st1
    | err e => rfl
    | panicked => rfl

theorem processAll_plain {w : List Char} (hw : ∀ c ∈ w, plainChar c = true) :
    ∀ (b : String) (col line : Nat) (ts : List Token),
      processAll w ⟨b, col, line, ts, .Normal⟩ =
        .ok ⟨String.mk (b.data ++ w), col + w.length, line, ts, .Normal⟩ := by
  induction w with
  | nil => intro b col line ts; simp [processAll, String.mk_data]
  | cons c r ih =>
    intro b col line ts
    rw [processAll_cons, process_plain (hw c (List.mem_cons_self c r))]
    show processAll r ⟨b.push c, col + 1, line, ts, .Normal⟩ = _
    rw [ih (fun d hd => hw d (List.mem_cons_of_mem c hd)) (b.push c) (col + 1)
      line ts]
    rw [String.data_push_eq]
    simp only [List.append_assoc, List.singleton_append, List.length_cons]
    rw [Nat.add_comm r.length 1, ← Nat.add_assoc]

theorem processAll_instring {w : List Char} (hw : ∀ c ∈ w, c ≠ '"') :
    ∀ (b : String) (col line : Nat) (ts : List Token),
      ∃ col2 line2,
        processAll w ⟨b, col, line, ts, .InString⟩ =
          .ok ⟨String.mk (b.data ++ w), col2, line2, ts, .InString⟩ := by
  induction w with
  | nil =>
    intro b col line ts
    exact ⟨col, line, by simp [processAll, String.mk_data]⟩
  | cons c r ih =>
    intro b col line ts
    rw [processAll_cons, process_instring_push (hw c (List.mem_cons_self c r))]
    by_cases hc : c = '\n'
    · subst hc
      rw [push_newline]
      show ∃ col2 line2,
        processAll r ⟨b.push '\n', 0, line + 1, ts, .InString⟩ = _
      obtain ⟨col2, line2, h2⟩ :=
        ih (fun d hd => hw d (List.mem_cons_of_mem _ hd)) (b.push '\n') 0
          (line + 1) ts
      refine ⟨col2, line2, ?_⟩
      rw [h2, String.data_push_eq]
      simp [List.append_assoc]
    · rw [push_of_ne_newline hc]
      show ∃ col2 line2,
        processAll r ⟨b.push c, col + 1, line, ts, .InString⟩ = _
      obtain ⟨col2, line2, h2⟩ :=
        ih (fun d hd => hw d (List.mem_cons_of_mem _ hd)) (b.push c) (col + 1)
          line ts
      refine ⟨col2, line2, ?_⟩
      rw [h2, String.data_push_eq]
      simp [List.append_assoc]

/-! ### Classification lemmas -/

theorem lookup_none_of_all {α : Type} {s : String} (l : List (String × α))
    (p : Char → Bool)
    (hl : ∀ q ∈ l, ∃ c ∈ q.1.data, p c = false)
    (hs : ∀ c ∈ s.data, p c = true) : l.lookup s = none := by
  induction l with
  | nil => rfl
  | cons q t ih =>
    have hq : (s == q.1) = false := by
      apply beq_eq_false_iff_ne.mpr
      intro he
      obtain ⟨c, hc, hcp⟩ := hl q (List.mem_cons_self q t)
      rw [← he] at hc
      rw [hs c hc] at hcp
      exact Bool.noConfusion hcp
    simp only [List.lookup, hq]
    exact ih fun q' hq' => hl q' (List.mem_cons_of_mem q hq')

theorem exactMatch_none_of_digits {s : String}
    (hs : ∀ c ∈ s.data, isAsciiDigit c = true) : exactMatch s = none := by
  unfold exactMatch
  rw [lookup_none_of_all keywordTable isAsciiDigit (by decide) hs,
    lookup_none_of_all symbolTable isAsciiDigit (by decide) hs]

theorem parse_tok_all {b : String} {t : Token}
    (h : Token.parse ⟨b, 0, 0, [], .Normal⟩ = .tok t) :
    ∀ (col line : Nat) (ts : List Token) (ctx : LexerContext),
      Token.parse ⟨b, col, line, ts, ctx⟩ = .tok t := by
  intro col line ts ctx
  unfold Token.parse at h ⊢
  cases h1 : exactMatch b with
  | some t1 => simp only [h1] at h ⊢; exact h
  | none =>
    simp only [h1] at h ⊢
    cases h2 : valid_literal b with
    | panicked => simp only [h2] at h; cases h
    | found o =>
      cases o with
      | some t2 => simp only [h2] at h ⊢; exact h
      | none =>
        simp only [h2] at h ⊢
        cases h3 : valid_identifier b with
        | some t3 => simp only [h3] at h ⊢; exact h
        | none => simp only [h3] at h; cases h

theorem parseI64_digits {s : String} (hne : s.data ≠ [])
    (hd : ∀ c ∈ s.data, isAsciiDigit c = true)
    (hr : digitsVal s.data ≤ 9223372036854775807) :
    parseI64 s = some ((digitsVal s.data : Int)) := by
  unfold parseI64
  cases hs : s.data with
  | nil => exact absurd hs hne
  | cons c0 rest =>
    have hc0 : isAsciiDigit c0 = true := hd c0 (hs ▸ List.mem_cons_self c0 rest)
    have hm : (c0 == '-') = false := by
      apply beq_eq_false_iff_ne.mpr
      intro he; subst he; exact absurd hc0 (by decide)
    have hp : (c0 == '+') = false := by
      apply beq_eq_false_iff_ne.mpr
      intro he; subst he; exact absurd hc0 (by decide)
    have hall : (c0 :: rest).all isAsciiDigit = true := by
      rw [List.all_eq_true]
      intro c hc
      exact hd c (hs ▸ hc)
    have hub : (digitsVal (c0 :: rest) : Int) ≤ 9223372036854775807 := by
      have := hs ▸ hr
      exact_mod_cast this
    have hlb : -9223372036854775808 ≤ (digitsVal (c0 :: rest) : Int) := by
      have : (0 : Int) ≤ (digitsVal (c0 :: rest) : Int) := Int.ofNat_nonneg _
      omega
    simp [hm, hp, hall, hub, hlb]

theorem valid_literal_digits {s : String} (hne : s.data ≠ [])
    (hd : ∀ c ∈ s.data, isAsciiDigit c = true)
    (hr : digitsVal s.data ≤ 9223372036854775807) :
    valid_literal s =
      .found (some (.Literal (.Integer ((digitsVal s.data : Int))))) := by
  have hany : s.data.any isAsciiDigit = true := by
    rw [List.any_eq_true]
    obtain ⟨c0, rest, hs⟩ := List.exists_cons_of_ne_nil hne
    exact ⟨c0, hs ▸ List.mem_cons_self c0 rest,
      hd c0 (hs ▸ List.mem_cons_self c0 rest)⟩
  have hint : valid_integer_literal s =
      .found (some (.Literal (.Integer ((digitsVal s.data : Int))))) := by
    unfold valid_integer_literal
    simp [hany, parseI64_digits hne hd hr]
  have hchar : valid_char_literal s = .found none := by
    unfold valid_char_literal
    simp [no_quote_pair fun c hc => digit_ne_squote (hd c hc)]
  unfold valid_literal
  rw [hint, hchar]
  rfl

theorem parse_all_digits {s : String} (hne : s.data ≠ [])
    (hd : ∀ c ∈ s.data, isAsciiDigit c = true)
    (hr : digitsVal s.data ≤ 9223372036854775807) (col line : Nat)
    (ts : List Token) (ctx : LexerContext) :
    Token.parse ⟨s, col, line, ts, ctx⟩ =
      .tok (.Literal (.Integer ((digitsVal s.data : Int)))) := by
  unfold Token.parse
  rw [show (Lexer.mk s col line ts ctx).buffer = s from rfl,
    exactMatch_none_of_digits hd, valid_literal_digits hne hd hr]

theorem valid_literal_alpha {s : String}
    (ha : ∀ c ∈ s.data, isAsciiAlpha c = true) :
    valid_literal s = .found none := by
  have hnod : s.data.any isAsciiDigit = false := by
    rw [← Bool.not_eq_true, List.any_eq_true]
    rintro ⟨c, hc, hcd⟩
    rw [alpha_not_digit (ha c hc)] at hcd
    exact Bool.noConfusion hcd
  have hint : valid_integer_literal s = .found none := by
    unfold valid_integer_literal
    simp [hnod]
  have hchar : valid_char_literal s = .found none := by
    unfold valid_char_literal
    simp [no_quote_pair fun c hc => alpha_ne_squote (ha c hc)]
  have hstr : valid_string_literal s = none := by
    unfold valid_string_literal
    simp [no_quote_pair fun c hc => alpha_ne_dquote (ha c hc)]
  unfold valid_literal
  rw [hint, hchar, hstr]
  rfl

theorem parse_ident {s : String} (hne : s.data ≠ [])
    (ha : ∀ c ∈ s.data, isAsciiAlpha c = true) (hx : exactMatch s = none)
    (col line : Nat) (ts : List Token) (ctx : LexerContext) :
    Token.parse ⟨s, col, line, ts, ctx⟩ = .tok (.Identifier s) := by
  have hany : s.data.any isAsciiAlpha = true := by
    rw [List.any_eq_true]
    obtain ⟨c0, rest, hs⟩ := List.exists_cons_of_ne_nil hne
    exact ⟨c0, hs ▸ List.mem_cons_self c0 rest,
      ha c0 (hs ▸ List.mem_cons_self c0 rest)⟩
  have hid : valid_identifier s = some (.Identifier s) := by
    unfold valid_identifier
    simp [hany]
  unfold Token.parse
  rw [show (Lexer.mk s col line ts ctx).buffer = s from rfl, hx,
    valid_literal_alpha ha, hid]

/-! ### The round-trip item model (spec §8)

The repository defines no textual rendering of tokens; the functions
`Keyword.text`, `Symbol.text` and `Token.text` are modelled from the spec:
the rendering of a token is the lexeme the spec associates to it (the
keyword's reserved word, the symbol's character, the identifier's name, the
integer's decimal form, the string/char literal's body without its quote
delimiters). -/

/-- Modelled from the spec: the reserved word of each keyword variant. -/
def Keyword.text : Keyword → String
  | .Auto => "auto" | .Break => "break" | .Case => "case" | .Char => "char"
  | .Const => "const" | .Continue => "continue" | .Default => "default"
  | .Do => "do" | .Double => "double" | .Else => "else" | .Enum => "enum"
  | .Extern => "extern" | .Float => "float" | .For => "for" | .Goto => "goto"
  | .If => "if" | .Inline => "inline" | .Int => "int" | .Long => "long"
  | .Nullptr => "nullptr" | .Register => "register" | .Restrict => "restrict"
  | .Return => "return" | .Short => "short" | .Signed => "signed"
  | .Sizeof => "sizeof" | .Static => "static" | .Struct => "struct"
  | .Switch => "switch" | .Typedef => "typedef" | .Union => "union"
  | .Unsigned => "unsigned" | .Void => "void" | .Volatile => "volatile"
  | .While => "while"

/-- Modelled from the spec: the character of each symbol variant. -/
def Symbol.text : Symbol → String
  | .Ampersand => "&" | .Asterisk => "*" | .BracketOpen => "\x7b"
  | .BracketClose => "\x7d" | .Comma => "," | .Colon => ":" | .Equals => "="
  | .Hash => "#" | .ParenOpen => "(" | .ParenClose => ")" | .Semicolon => ";"
  | .SquareBracketOpen => "[" | .SquareBracketClose => "]"

/-- Modelled from the spec: the textual rendering of a token (spec §8's
round-trip property; literal bodies are rendered without quote delimiters). -/
def Token.text : Token → String
  | .Keyword k => k.text
  | .Identifier s => s
  | .Literal (.Integer v) => toString v
  | .Literal (.String s) => s
  | .Literal (.Char c) => String.mk [c]
  | .Symbol s => s.text

/-- Strings joined by single spaces ("separated by single spaces"). -/
def joinSp : List String → String
  | [] => ""
  | [s] => s
  | s :: r => s ++ " " ++ joinSp r

/-- Modelled from the spec: rendering of the produced token sequence with
single-space separators. -/
def renderTokens (ts : List Token) : String := joinSp (ts.map Token.text)

/-- One input item of the round-trip property: a keyword, a symbol, an
identifier lexeme, an integer-literal lexeme or a string literal body. -/
inductive Item
  | kw (k : Keyword)
  | sym (s : Symbol)
  | ident (s : String)
  | intLit (s : String)
  | strLit (body : String)
  deriving DecidableEq

/-- The item as typed in the input (string literals carry their quotes). -/
def Item.source : Item → String
  | .kw k => k.text
  | .sym s => s.text
  | .ident s => s
  | .intLit s => s
  | .strLit body => "\"" ++ body ++ "\""

/-- The item's rendering after scanning (string literals lose their quotes). -/
def Item.render : Item → String
  | .kw k => k.text
  | .sym s => s.text
  | .ident s => s
  | .intLit s => s
  | .strLit body => body

/-- The token the scan produces for the item. -/
def Item.tokenOf : Item → Token
  | .kw k => .Keyword k
  | .sym s => .Symbol s
  | .ident s => .Identifier s
  | .intLit s => .Literal (.Integer ((digitsVal s.data : Int)))
  | .strLit body => .Literal (.String body)

/-- Side conditions under which the scan of the item succeeds and renders
back to its text: identifiers are non-empty, all-letter and no exact
keyword/symbol match; integer literals are non-empty all-digit lexemes whose
value fits in `i64` and whose decimal rendering is the lexeme itself (no
leading zeros); string bodies are non-empty and quote-free. -/
def Item.good : Item → Prop
  | .kw _ => True
  | .sym _ => True
  | .ident s => s ≠ "" ∧ (∀ c ∈ s.data, isAsciiAlpha c = true) ∧
      exactMatch s = none
  | .intLit s => s ≠ "" ∧ (∀ c ∈ s.data, isAsciiDigit c = true) ∧
      digitsVal s.data ≤ 9223372036854775807 ∧
      toString ((digitsVal s.data : Int)) = s
  | .strLit body => body ≠ "" ∧ ∀ c ∈ body.data, c ≠ '"'

instance (i : Item) : Decidable i.good := by
  cases i <;> simp only [Item.good] <;> infer_instance

/-- The scan of one item's text from a fresh buffer in `Normal` mode: the
scanner stays in `Normal` mode and a final flush appends exactly the item's
token. -/
def ScanSpec (src : String) (t : Token) : Prop :=
  ∀ (col line : Nat) (ts : List Token), ∃ b2 col2 line2 ts2,
    processAll src.data ⟨"", col, line, ts, .Normal⟩ =
      .ok ⟨b2, col2, line2, ts2, .Normal⟩ ∧
    Lexer.pop ⟨b2, col2, line2, ts2, .Normal⟩ =
      .ok ⟨"", col2, line2, ts ++ [t], .Normal⟩

theorem scan_word {w : String} {t : Token}
    (hplain : ∀ c ∈ w.data, plainChar c = true) (hne : w.data ≠ [])
    (ht : ∀ (col line : Nat) (ts : List Token) (ctx : LexerContext),
      Token.parse ⟨w, col, line, ts, ctx⟩ = .tok t) :
    ScanSpec w t := by
  intro col line ts
  refine ⟨w, col + w.data.length, line, ts, ?_, ?_⟩
  · have h := processAll_plain hplain "" col line ts
    rw [show (("" : String)).data ++ w.data = w.data by simp] at h
    rw [h, String.mk_data]
  · exact pop_tok hne (ht _ _ _ _)

theorem process_via_delim {b : String} {col line : Nat} {ts : List Token}
    {c : Char} (hsp : c ≠ ' ') (hnl : c ≠ '\n') (hd : delimChar c = true) :
    Lexer.process ⟨b, col, line, ts, .Normal⟩ c =
      match Lexer.pop ⟨b, col, line, ts, .Normal⟩ with
      | .ok st1 => Lexer.pop (st1.push c)
      | .err e => .err e
      | .panicked => .panicked := by
  have hA : (c == ' ' || c == '\n') = false := by simp [hsp, hnl]
  have hB : (c == '(' || c == ')' || c == '\x7b' || c == '\x7d' || c == ';'
      || c == '*') = true := hd
  simp only [Lexer.process, hA, hB]
  simp

theorem scan_delim {c : Char} {t : Token} (hc : delimChar c = true)
    (ht : ∀ (col line : Nat) (ts : List Token) (ctx : LexerContext),
      Token.parse ⟨String.mk [c], col, line, ts, ctx⟩ = .tok t) :
    ScanSpec (String.mk [c]) t := by
  intro col line ts
  refine ⟨"", col + 1, line, ts ++ [t], ?_, pop_empty _ _ _ _⟩
  have hc' := hc
  simp only [delimChar, Bool.or_eq_true, beq_iff_eq] at hc'
  have hsp : c ≠ ' ' := by
    rcases hc' with ((((h | h) | h) | h) | h) | h <;> subst h <;> decide
  have hnl : c ≠ '\n' := by
    rcases hc' with ((((h | h) | h) | h) | h) | h <;> subst h <;> decide
  rw [processAll_cons, process_via_delim hsp hnl hc, pop_empty]
  show (match Lexer.pop (Lexer.push ⟨"", col, line, ts, .Normal⟩ c) with
    | .ok st1 => processAll [] st1
    | .err e => .err e
    | .panicked => .panicked) = _
  rw [push_of_ne_newline hnl,
    show (("" : String).push c) = String.mk [c] from rfl,
    pop_tok (by simp) (ht (col + 1) line ts .Normal)]
  rfl

theorem scan_str {body : String} (hne : body.data ≠ [])
    (hq : ∀ c ∈ body.data, c ≠ '"') :
    ScanSpec ("\"" ++ body ++ "\"") (.Literal (.String body)) := by
  intro col line ts
  have hdata : ("\"" ++ body ++ "\"").data = '"' :: (body.data ++ ['"']) := by
    rw [String.data_app, String.data_app]
    rfl
  rw [hdata, processAll_cons, process_quote_normal]
  obtain ⟨col2, line2, h2⟩ := processAll_instring hq "" col line ts
  rw [show (("" : String)).data ++ body.data = body.data by simp] at h2
  refine ⟨"", col2, line2, ts ++ [.Literal (.String body)], ?_, pop_empty _ _ _ _⟩
  show processAll (body.data ++ ['"']) ⟨"", col, line, ts, .InString⟩ = _
  rw [processAll_append, h2, String.mk_data]
  show processAll ['"'] ⟨body, col2, line2, ts, .InString⟩ = _
  rw [processAll_cons, process_instring_close hne]
  rfl

theorem kw_plain : ∀ k : Keyword, ∀ c ∈ (Keyword.text k).data,
    plainChar c = true := by decide

theorem kw_ne : ∀ k : Keyword, (Keyword.text k).data ≠ [] := by decide

theorem kw_parse : ∀ k : Keyword,
    Token.parse ⟨Keyword.text k, 0, 0, [], .Normal⟩ = .tok (.Keyword k) := by
  decide

theorem item_scan (i : Item) (hg : i.good) : ScanSpec i.source i.tokenOf := by
  cases i with
  | kw k =>
    exact scan_word (kw_plain k) (kw_ne k) (parse_tok_all (kw_parse k))
  | sym s =>
    cases s <;>
      first
        | exact scan_word (by decide) (by decide) (parse_tok_all (by decide))
        | exact scan_delim (by decide) (parse_tok_all (by decide))
  | ident s =>
    obtain ⟨h1, h2, h3⟩ := hg
    exact scan_word (fun c hc => alpha_plain (h2 c hc)) (String.data_ne_nil h1)
      (parse_ident (String.data_ne_nil h1) h2 h3)
  | intLit s =>
    obtain ⟨h1, h2, h3, h4⟩ := hg
    exact scan_word (fun c hc => digit_plain (h2 c hc)) (String.data_ne_nil h1)
      (parse_all_digits (String.data_ne_nil h1) h2 h3)
  | strLit body =>
    obtain ⟨h1, h2⟩ := hg
    exact scan_str (String.data_ne_nil h1) h2

theorem scan_good_items (items : List Item) (h : ∀ i ∈ items, i.good) :
    ∀ (col line : Nat) (ts : List Token), ∃ b2 col2 line2 ts2,
      processAll (joinSp (items.map Item.source)).data
          ⟨"", col, line, ts, .Normal⟩ =
        .ok ⟨b2, col2, line2, ts2, .Normal⟩ ∧
      Lexer.pop ⟨b2, col2, line2, ts2, .Normal⟩ =
        .ok ⟨"", col2, line2, ts ++ items.map Item.tokenOf, .Normal⟩ := by
  induction items with
  | nil =>
    intro col line ts
    exact ⟨"", col, line, ts, by simp [joinSp, processAll],
      by simpa using pop_empty col line ts .Normal⟩
  | cons i rest ih =>
    intro col line ts
    have hi : i.good := h i (List.mem_cons_self i rest)
    cases rest with
    | nil =>
      obtain ⟨b2, col2, line2, ts2, hp, hq⟩ := item_scan i hi col line ts
      exact ⟨b2, col2, line2, ts2, by simpa [joinSp] using hp,
        by simpa using hq⟩
    | cons j rs =>
      obtain ⟨b2, col2, line2, ts2, hp, hq⟩ := item_scan i hi col line ts
      obtain ⟨b3, col3, line3, ts3, hp3, hq3⟩ :=
        ih (fun x hx => h x (List.mem_cons_of_mem i hx)) col2 line2
          (ts ++ [i.tokenOf])
      refine ⟨b3, col3, line3, ts3, ?_, ?_⟩
      · have hdata : (joinSp ((i :: j :: rs).map Item.source)).data =
            i.source.data ++
              (' ' :: (joinSp ((j :: rs).map Item.source)).data) := by
          show (Item.source i ++ " " ++
            joinSp ((j :: rs).map Item.source)).data = _
          rw [String.data_app, String.data_app]
          simp
        rw [hdata, processAll_append, hp]
        show processAll (' ' :: (joinSp ((j :: rs).map Item.source)).data)
          ⟨b2, col2, line2, ts2, .Normal⟩ = _
        rw [processAll_cons, process_space, hq]
        show processAll (joinSp ((j :: rs).map Item.source)).data
          ⟨"", col2, line2, ts ++ [i.tokenOf], .Normal⟩ = _
        rw [hp3]
      · rw [hq3]
        simp

theorem lex_good_items (items : List Item) (h : ∀ i ∈ items, i.good) :
    lexContents (joinSp (items.map Item.source)) =
      .ok (items.map Item.tokenOf) := by
  obtain ⟨b2, col2, line2, ts2, hp, hq⟩ := scan_good_items items h 0 1 []
  unfold lexContents
  rw [show Lexer.new = (⟨"", 0, 1, [], .Normal⟩ : Lexer) from rfl, hp]
  show (match Lexer.finalize ⟨b2, col2, line2, ts2, .Normal⟩ with
    | LexOutcome.ok st1 => LexOutcome.ok st1.tokens
    | LexOutcome.err e => LexOutcome.err e
    | LexOutcome.panicked => LexOutcome.panicked) = _
  rw [finalize_of_pop hq]
  simp

theorem text_tokenOf (i : Item) (hg : i.good) :
    Token.text i.tokenOf = i.render := by
  cases i with
  | kw k => rfl
  | sym s => rfl
  | ident s => rfl
  | intLit s => exact hg.2.2.2
  | strLit body => rfl

theorem render_good_items (items : List Item) (h : ∀ i ∈ items, i.good) :
    renderTokens (items.map Item.tokenOf) = joinSp (items.map Item.render) := by
  unfold renderTokens
  rw [List.map_map]
  congr 1
  induction items with
  | nil => rfl
  | cons i rest ih =>
    have hi := text_tokenOf i (h i (List.mem_cons_self i rest))
    simp only [List.map_cons]
    rw [show (Token.text ∘ Item.tokenOf) i = Token.text i.tokenOf from rfl, hi,
      ih fun x hx => h x (List.mem_cons_of_mem i hx)]

/-! ### The claims -/

/-- Claim C1: the claim states that every consumed character advances
`column` (with newline resetting it and advancing `line`), so an
unclassifiable lexeme's error reports the lexeme's true position.  The code
only does this bookkeeping inside `push`, which delimiter characters
(space, newline, quote in `Normal` mode) never reach: scanning `"a\n@@@"`,
whose lexeme `@@@` begins at line 2, column 0, reports line 1, column 1;
scanning `" @@@"`, whose lexeme begins at column 1, reports column 0. -/
theorem c1_position_tracking_failing_eval :
    lexContents "a\n@@@" = .err { token := "@@@", column := 1, line := 1 } ∧
    lexContents " @@@" = .err { token := "@@@", column := 0, line := 1 } := by
  constructor <;> decide

/-- Claim C2 (counterexample): processing `"` in `Normal` mode does NOT
flush the pending buffer: scanning `foo"bar"` yields the single token
`Literal(String "foobar")`, not `Identifier "foo"` followed by
`Literal(String "bar")` as the claim requires. -/
theorem c2_counterexample :
    lexContents "foo\"bar\"" = .ok [.Literal (.String "foobar")] ∧
    lexContents "foo\"bar\"" ≠
      .ok [.Identifier "foo", .Literal (.String "bar")] := by
  constructor <;> decide

/-- Claim C2 (amended): in `Normal` mode the double quote switches the mode
to `InString` without flushing the buffer and without appending the quote;
a pending lexeme is retained and merged into the string literal's body, so
`foo"bar"` yields the single token `Literal(String "foobar")`. -/
theorem c2_amended_quote_no_flush :
    (∀ (buf : String) (col line : Nat) (ts : List Token),
        Lexer.process ⟨buf, col, line, ts, .Normal⟩ '"' =
          .ok ⟨buf, col, line, ts, .InString⟩) ∧
    lexContents "foo\"bar\"" = .ok [.Literal (.String "foobar")] :=
  ⟨process_quote_normal, by decide⟩

/-- Claim C3: the claim states a one-character body between `'` delimiters
yields `Literal(Char c)` and other bodies a classification error, with no
panic.  In the code `'` is an ordinary buffered character (there is no
char-literal scan mode), and `valid_char_literal` runs
`string.parse::<char>().unwrap()` on the WHOLE lexeme including both quote
delimiters, so whenever the `'.*'` pattern matches the parsed string has at
least two characters and the `unwrap` panics: scanning `'a'` panics, and
`valid_char_literal` can never produce a token on any lexeme. -/
theorem c3_char_literal_always_panics :
    lexContents "\x27a\x27" = .panicked ∧
    (∀ s : String, valid_char_literal s = .found none ∨
      valid_char_literal s = .panicked) := by
  refine ⟨by decide, ?_⟩
  intro s
  unfold valid_char_literal
  by_cases hq : containsQuotePair '\x27' s.data = true
  · rw [if_pos hq]
    have hlen := containsQuotePair_length hq
    have hp : parseCharRust s = none := by
      unfold parseCharRust
      cases hs : s.data with
      | nil => rfl
      | cons c rest =>
        cases rest with
        | nil => rw [hs] at hlen; simp at hlen
        | cons c2 r2 => rfl
    rw [hp]
    exact Or.inr rfl
  · rw [if_neg hq]
    exact Or.inl rfl

/-- Claim C4 (counterexample): the claim states classification of an
all-digit lexeme always succeeds with its `i64` value; but
`str::parse::<i64>` fails on overflow and the code unwraps, so scanning the
digit lexeme `9223372036854775808` (`i64::MAX + 1`) panics instead of
producing a token. -/
theorem c4_counterexample :
    lexContents "9223372036854775808" = .panicked := by decide

/-- Claim C4 (amended): for every non-empty all-digit lexeme whose value is
at most `9223372036854775807` (`i64::MAX`), classification succeeds and
yields `Literal(Integer v)` with `v` the lexeme's decimal value; larger
all-digit lexemes make the value construction panic. -/
theorem c4_amended_integer_classification (s : String) (col line : Nat)
    (ts : List Token) (ctx : LexerContext) (hne : s ≠ "")
    (hd : ∀ c ∈ s.data, isAsciiDigit c = true)
    (hr : digitsVal s.data ≤ 9223372036854775807) :
    Token.parse ⟨s, col, line, ts, ctx⟩ =
      .tok (.Literal (.Integer ((digitsVal s.data : Int)))) :=
  parse_all_digits (String.data_ne_nil hne) hd hr col line ts ctx

/-- Witness for C4's amended theorem at the concrete lexeme `123`. -/
theorem c4_amended_witness :
    Token.parse ⟨"123", 3, 1, [], .Normal⟩ =
      .tok (.Literal (.Integer 123)) :=
  c4_amended_integer_classification "123" 3 1 [] .Normal (by decide)
    (by decide) (by decide)

/-- Claim C5 (counterexample): the claim states single-quoted char bodies
are scanned in a quote mode where whitespace is not a delimiter.  The code
has no such mode for `'`: scanning `' '` (quote, space, quote) flushes at
the space and fails classifying the lone `'`, instead of producing a char
literal with a space body. -/
theorem c5_counterexample :
    lexContents "\x27 \x27" =
      .err { token := "\x27", column := 0, line := 1 } := by decide

/-- Claim C5 (amended): the distinct scan mode exists only for double-quote
string bodies: in `InString` mode every character other than `"` (spaces,
parens, braces, semicolons, asterisks, newlines included) is appended
verbatim and only `"` ends the mode; the single quote `'` never enters any
literal mode and is buffered as an ordinary `Normal`-mode character. -/
theorem c5_amended_string_mode_only :
    (∀ (buf : String) (col line : Nat) (ts : List Token) (c : Char),
        c ≠ '"' →
        Lexer.process ⟨buf, col, line, ts, .InString⟩ c =
          .ok (Lexer.push ⟨buf, col, line, ts, .InString⟩ c)) ∧
    (∀ (buf : String) (col line : Nat) (ts : List Token), buf ≠ "" →
        Lexer.process ⟨buf, col, line, ts, .InString⟩ '"' =
          .ok ⟨"", col, line, ts ++ [.Literal (.String buf)], .Normal⟩) ∧
    (∀ (buf : String) (col line : Nat) (ts : List Token),
        Lexer.process ⟨buf, col, line, ts, .Normal⟩ '\x27' =
          .ok (Lexer.push ⟨buf, col, line, ts, .Normal⟩ '\x27')) :=
  ⟨fun _ _ _ _ _ hc => process_instring_push hc,
   fun _ _ _ _ hb => process_instring_close (String.data_ne_nil hb),
   fun _ _ _ _ => process_plain (by decide)⟩

/-- Witness for C5's amended theorem: a space and a closing quote processed
in `InString` mode with the concrete buffer `a`. -/
theorem c5_amended_witness :
    Lexer.process ⟨"a", 1, 1, [], .InString⟩ ' ' =
      .ok (Lexer.push ⟨"a", 1, 1, [], .InString⟩ ' ') ∧
    Lexer.process ⟨"a", 1, 1, [], .InString⟩ '"' =
      .ok ⟨"", 1, 1, [.Literal (.String "a")], .Normal⟩ :=
  ⟨c5_amended_string_mode_only.1 "a" 1 1 [] ' ' (by decide),
   c5_amended_string_mode_only.2.1 "a" 1 1 [] (by decide)⟩

/-- Claim C6: the claim states `Identifier(name)` is emitted exactly for
lexemes fully matching letter-then-letters-or-digits, so no lexeme holding
`_`, `=` or `@` is ever an identifier.  The code checks the pattern with an
unanchored `Regex::is_match`, which accepts any lexeme containing a letter:
scanning `a_b` and `foo@bar` yields `Identifier "a_b"` and
`Identifier "foo@bar"`. -/
theorem c6_unanchored_identifier_eval :
    lexContents "a_b" = .ok [.Identifier "a_b"] ∧
    valid_identifier "a_b" = some (.Identifier "a_b") ∧
    lexContents "foo@bar" = .ok [.Identifier "foo@bar"] := by
  refine ⟨by decide, by decide, by decide⟩

/-- Claim C7: scanning each of the 35 reserved words of the keyword table
yields exactly the one matching `Keyword` token. -/
theorem c7_keyword_scan :
    ∀ p ∈ keywordTable, lexContents p.1 = .ok [.Keyword p.2] := by decide

/-- Witness for C7 at the concrete keyword `auto`. -/
theorem c7_keyword_scan_witness : lexContents "auto" = .ok [.Keyword .Auto] :=
  c7_keyword_scan ("auto", .Auto) (by decide)

/-- Claim C8 (counterexample): the round trip fails on spec-recognized
items: the identifier-pattern lexeme `a1` makes the scan panic (its digit
triggers the integer branch, whose `unwrap` fails), so no token sequence is
produced at all; and the integer lexeme `007` scans to `Literal(Integer 7)`
which renders back as `7`, not `007`. -/
theorem c8_counterexample :
    lexContents "a1" = .panicked ∧
    valid_identifier "a1" = some (.Identifier "a1") ∧
    lexContents "007" = .ok [.Literal (.Integer 7)] ∧
    renderTokens [.Literal (.Integer 7)] = "7" := by
  refine ⟨by decide, by decide, by decide, by decide⟩

/-- Claim C8 (amended): the round trip holds for inputs assembled from
good items separated by single spaces — keywords, symbols, non-empty
all-letter identifiers that match no keyword/symbol, canonical in-range
integer literals (the decimal rendering of their value), and double-quoted
string literals with non-empty quote-free bodies: the scan succeeds with
exactly one token per item, and rendering the tokens with single-space
separators reproduces the input up to the string literals' quote
delimiters. -/
theorem c8_amended_round_trip (items : List Item)
    (h : ∀ i ∈ items, i.good) :
    lexContents (joinSp (items.map Item.source)) =
      .ok (items.map Item.tokenOf) ∧
    renderTokens (items.map Item.tokenOf) =
      joinSp (items.map Item.render) :=
  ⟨lex_good_items items h, render_good_items items h⟩

/-- Witness for C8's amended theorem at the concrete item sequence
`int foo = 5 ;`. -/
theorem c8_amended_witness :
    lexContents "int foo = 5 ;" =
      .ok [.Keyword .Int, .Identifier "foo", .Symbol .Equals,
           .Literal (.Integer 5), .Symbol .Semicolon] ∧
    renderTokens [.Keyword .Int, .Identifier "foo", .Symbol .Equals,
      .Literal (.Integer 5), .Symbol .Semicolon] = "int foo = 5 ;" :=
  c8_amended_round_trip
    [.kw .Int, .ident "foo", .sym .Equals, .intLit "5", .sym .Semicolon]
    (by decide)

/-- Claim C9: scanning is deterministic — two runs of `lexContents` on the
same input produce the same outcome (the embedding is a pure function of
the input; the source constructs a fresh `Lexer` per scan and reads no
global state). -/
theorem c9_lex_deterministic (s : String)
    (o1 o2 : LexOutcome (List Token))
    (h1 : lexContents s = o1) (h2 : lexContents s = o2) : o1 = o2 := by
  rw [← h1, ← h2]

/-- Witness for C9 at the concrete input `int`. -/
theorem c9_lex_deterministic_witness :
    (LexOutcome.ok [Token.Keyword Keyword.Int] : LexOutcome (List Token)) =
      .ok [.Keyword .Int] :=
  c9_lex_deterministic "int" _ _ (by decide) (by decide)

/-- Claim C10: an input ending inside an unclosed string literal produces no
unterminated-literal error: `Token.parse` (hence the final flush) behaves
identically whatever the scan mode, and scanning `"abc` (an opening quote
with no closing quote) succeeds with the single token `Identifier "abc"`,
the partial body classified through the ordinary path. -/
theorem c10_unterminated_string_no_error :
    (∀ (buf : String) (col line : Nat) (ts : List Token),
        Token.parse ⟨buf, col, line, ts, .InString⟩ =
          Token.parse ⟨buf, col, line, ts, .Normal⟩) ∧
    lexContents "\"abc" = .ok [.Identifier "abc"] :=
  ⟨fun _ _ _ _ => rfl, by decide⟩

end RCC
